import Mathlib

/-!
Verification development for the Hello_Rust repository.

Part 1 embeds the packed piece representation of
`src/chess_game/src/chess/piece.rs` (the only fully implemented chess file).

Part 2 embeds the `two_sum` function of `src/twosum/src/main.rs`.

Part 3 models the chess engine (Board, MoveGenerator, Move, Game) from the
specification, since the corresponding files `board.rs`, `move.rs`, `game.rs`
are empty scaffolding (TODO stubs) in the repository.
-/

/-! ## Part 1: packed piece representation (from src/chess_game/src/chess/piece.rs) -/

/-- PieceKind from piece.rs: `#[repr(u8)]` enum with discriminants 0..5. -/
inductive PieceKind where
  | Pawn
  | Knight
  | Bishop
  | Rook
  | Queen
  | King
deriving DecidableEq

/-- PieceColor from piece.rs: `#[repr(u8)]` enum with discriminants 0 and 1. -/
inductive PieceColor where
  | White
  | Black
deriving DecidableEq

/-- The `repr(u8)` discriminant of a PieceKind (the value of `kind as u8`). -/
def PieceKind.toU8 : PieceKind → Nat
  | .Pawn => 0
  | .Knight => 1
  | .Bishop => 2
  | .Rook => 3
  | .Queen => 4
  | .King => 5

/-- The `repr(u8)` discriminant of a PieceColor (the value of `color as u8`). -/
def PieceColor.toU8 : PieceColor → Nat
  | .White => 0
  | .Black => 1

/-- Decoding a byte value into a PieceKind: models `transmute` in
`Piece::kind`, which is defined only on discriminants 0..5 (any other value
is undefined behaviour, modelled as `none`). -/
def PieceKind.ofU8 : Nat → Option PieceKind
  | 0 => some .Pawn
  | 1 => some .Knight
  | 2 => some .Bishop
  | 3 => some .Rook
  | 4 => some .Queen
  | 5 => some .King
  | _ => none

/-- Decoding a byte value into a PieceColor: models `transmute` in
`Piece::color`, defined only on 0 and 1. -/
def PieceColor.ofU8 : Nat → Option PieceColor
  | 0 => some .White
  | 1 => some .Black
  | _ => none

/-- Piece from piece.rs: a single packed byte `data : u8`.  Equality is the
derived byte-wise equality on `data`. -/
structure Piece where
  data : Nat
deriving DecidableEq

/-- Constructor `Piece::new(kind, color)`: `data = (kind as u8) | ((color as u8) << 7)`,
a u8 value (reduced mod 256 as in the machine type; the packed value in fact
always fits). -/
def Piece.new (kind : PieceKind) (color : PieceColor) : Piece :=
  ⟨(kind.toU8 ||| (color.toU8 <<< 7)) % 256⟩

/-- Accessor `Piece::kind`: `transmute(self.data & 0b111)`; `none` models the
undefined-behaviour branch of the transmute. -/
def Piece.kind (p : Piece) : Option PieceKind :=
  PieceKind.ofU8 (p.data &&& 0b111)

/-- Accessor `Piece::color`: `transmute(self.data >> 7)`; `none` models the
undefined-behaviour branch of the transmute. -/
def Piece.color (p : Piece) : Option PieceColor :=
  PieceColor.ofU8 (p.data >>> 7)

/-! ## Part 2: two_sum (from src/twosum/src/main.rs) -/

/-- Two's-complement wrap of an integer into the `i32` range, the result of
an overflowing `i32` addition under Rust's release-mode wrapping semantics
(a debug build would panic on overflow instead of producing a value). -/
def wrapI32 (x : Int) : Int := (x + 2 ^ 31) % 2 ^ 32 - 2 ^ 31

/-- The inner `for j in (i+1)..nums.len()` loop of `two_sum`, started at `j`:
returns `some (i, j)` for the first `j` with `nums[i] + nums[j] == target`,
where `+` is the `i32` addition the program performs, i.e. wrapping on
overflow. -/
def twoSumInner (nums : List Int) (target : Int) (i : Nat) (j : Nat) :
    Option (Nat × Nat) :=
  if _h : j < nums.length then
    if wrapI32 (nums.getD i 0 + nums.getD j 0) = target then some (i, j)
    else twoSumInner nums target i (j + 1)
  else none
termination_by nums.length - j

/-- The outer `for i in 0..nums.len()` loop of `two_sum`, started at `i`. -/
def twoSumOuter (nums : List Int) (target : Int) (i : Nat) :
    Option (Nat × Nat) :=
  if _h : i < nums.length then
    match twoSumInner nums target i (i + 1) with
    | some p => some p
    | none => twoSumOuter nums target (i + 1)
  else none
termination_by nums.length - i

/-- Function `two_sum(nums, target)` from src/twosum/src/main.rs: nested scan
over all pairs `i < j`, returning the first pair whose values sum (as `i32`,
wrapping on overflow) to `target`. -/
def two_sum (nums : List Int) (target : Int) : Option (Nat × Nat) :=
  twoSumOuter nums target 0

/-! ## Part 3: the chess engine, modelled from the spec

The files `board.rs`, `move.rs`, `game.rs` of the repository contain only
`pub struct ... { // TODO }` scaffolding, so the engine below is modelled
from the specification (sections 3, 4 and 6 of spec.md). -/

namespace Engine

/-- Modelled from the spec: the opposite color (spec section 3, "side-to-move
(White|Black)" flips each ply). -/
def oppColor : PieceColor → PieceColor
  | .White => .Black
  | .Black => .White

/-- Modelled from the spec: the abstract Piece contract of spec section 3 —
"the abstract contract is just the two fields" kind and color (the packed
byte of piece.rs is an optional optimization). -/
structure EPiece where
  kind : PieceKind
  color : PieceColor
deriving DecidableEq

/-- Modelled from the spec: the Board of spec section 3 — 64 optional
pieces (square index 0..63 = rank*8+file), side to move, four castling
rights, optional en-passant target, half-move clock, full-move number.
`board.rs` is an empty stub. -/
structure Board where
  squares : List (Option EPiece)
  sideToMove : PieceColor
  castleWK : Bool
  castleWQ : Bool
  castleBK : Bool
  castleBQ : Bool
  epTarget : Option Nat
  halfmoveClock : Nat
  fullmoveNumber : Nat
deriving DecidableEq

/-- Modelled from the spec: `piece_at(square)`, an O(1) occupancy query
(spec section 4.1); out-of-range squares hold nothing. -/
def Board.pieceAt (b : Board) (s : Nat) : Option EPiece :=
  b.squares.getD s none

/-- Modelled from the spec: square arithmetic on the 8×8 grid — move from
square `s` by `df` files and `dr` ranks, `none` when that leaves the board
(spec section 3, Square invariant: always in range). -/
def shift (s : Nat) (df dr : Int) : Option Nat :=
  let f : Int := (s % 8 : Nat) + df
  let r : Int := (s / 8 : Nat) + dr
  if 0 ≤ f ∧ f < 8 ∧ 0 ≤ r ∧ r < 8 then some (r.toNat * 8 + f.toNat) else none

/-- Modelled from the spec: the knight's fixed offset table
(spec section 4.2, "Knight/King: fixed offset sets"). -/
def knightOffsets : List (Int × Int) :=
  [(1, 2), (2, 1), (2, -1), (1, -2), (-1, -2), (-2, -1), (-2, 1), (-1, 2)]

/-- Modelled from the spec: the king's fixed offset table. -/
def kingOffsets : List (Int × Int) :=
  [(1, 0), (1, 1), (0, 1), (-1, 1), (-1, 0), (-1, -1), (0, -1), (1, -1)]

/-- Modelled from the spec: rook ray directions. -/
def rookDirs : List (Int × Int) := [(1, 0), (-1, 0), (0, 1), (0, -1)]

/-- Modelled from the spec: bishop ray directions. -/
def bishopDirs : List (Int × Int) := [(1, 1), (-1, 1), (-1, -1), (1, -1)]

/-- Modelled from the spec: queen ray directions (rook + bishop). -/
def queenDirs : List (Int × Int) := rookDirs ++ bishopDirs

/-- Modelled from the spec: ray scan from `cur` in direction `d` — collect
squares until the board edge or the first occupied square, which is included
(spec section 4.2, "ray-scan in each applicable direction, stopping at the
first occupied square").  `fuel` bounds the walk (7 suffices on 8×8). -/
def rayScan (b : Board) (d : Int × Int) : Nat → Nat → List Nat
  | 0, _ => []
  | fuel + 1, cur =>
    match shift cur d.1 d.2 with
    | none => []
    | some nxt =>
      nxt :: (if (b.pieceAt nxt).isSome then [] else rayScan b d fuel nxt)

/-- Modelled from the spec: does a piece of color `c` of sliding kinds
`k1`/`k2` (rook/queen or bishop/queen) stand on the first occupied square
along direction `d` from `sq`? -/
def slideHit (b : Board) (c : PieceColor) (k1 k2 : PieceKind)
    (sq : Nat) (d : Int × Int) : Bool :=
  (rayScan b d 7 sq).any fun t =>
    match b.pieceAt t with
    | some p => p.color = c && (p.kind = k1 || p.kind = k2)
    | none => false

/-- Modelled from the spec: `is_square_attacked(square, by_color)` of spec
section 4.1 — raw attack patterns only, no legality recursion: pawns attack
diagonally only, knights and kings by fixed offset tables, sliders along
rays until blocked. -/
def Board.isSquareAttacked (b : Board) (sq : Nat) (byColor : PieceColor) : Bool :=
  let pawnDr : Int := if byColor = .White then 1 else -1
  let pawnHit : Bool :=
    [(-1 : Int), 1].any fun df =>
      match shift sq df (-pawnDr) with
      | some t => b.pieceAt t = some ⟨.Pawn, byColor⟩
      | none => false
  let knightHit : Bool :=
    knightOffsets.any fun d =>
      match shift sq d.1 d.2 with
      | some t => b.pieceAt t = some ⟨.Knight, byColor⟩
      | none => false
  let kingHit : Bool :=
    kingOffsets.any fun d =>
      match shift sq d.1 d.2 with
      | some t => b.pieceAt t = some ⟨.King, byColor⟩
      | none => false
  let rookHit : Bool := rookDirs.any (slideHit b byColor .Rook .Queen sq)
  let bishopHit : Bool := bishopDirs.any (slideHit b byColor .Bishop .Queen sq)
  pawnHit || knightHit || kingHit || rookHit || bishopHit

/-- Modelled from the spec: the square of the king of color `c`
(spec section 3 invariant: exactly one king per color on legal boards). -/
def Board.kingSquare (b : Board) (c : PieceColor) : Option Nat :=
  (List.range 64).find? fun s => b.pieceAt s = some ⟨.King, c⟩

/-- Modelled from the spec: is the king of color `c` attacked by the
opponent (used for the legality filter, check, checkmate and stalemate)? -/
def Board.inCheck (b : Board) (c : PieceColor) : Bool :=
  match b.kingSquare c with
  | some s => b.isSquareAttacked s (oppColor c)
  | none => false

/-- Modelled from the spec: the Move record of spec section 3 — from, to,
moving piece, optional captured piece, optional promotion kind, and a
special-move flag.  `move.rs` is an empty stub. -/
inductive MoveFlag where
  | Normal
  | DoublestepPawn
  | EnPassantCapture
  | CastleKingSide
  | CastleQueenSide
deriving DecidableEq

/-- Modelled from the spec: a single ply (spec section 3, Move). -/
structure Move where
  fromSq : Nat
  toSq : Nat
  piece : EPiece
  captured : Option EPiece
  promotion : Option PieceKind
  flag : MoveFlag
deriving DecidableEq

/-- Modelled from the spec: the square of the pawn captured en passant —
same rank as the origin, same file as the destination (spec section 4.1:
the captured pawn "is NOT on the destination square"). -/
def epCapSq (m : Move) : Nat :=
  (m.fromSq / 8) * 8 + m.toSq % 8

/-- Modelled from the spec: may the side of color `c` move to square `t`?
True when `t` is empty or holds an enemy piece (never a same-color piece). -/
def Board.enemyOrEmpty (b : Board) (c : PieceColor) (t : Nat) : Bool :=
  match b.pieceAt t with
  | none => true
  | some q => q.color ≠ c

/-- Modelled from the spec: build an ordinary (non-special) move; the
captured field records the current occupant of the destination. -/
def mkNormal (b : Board) (p : EPiece) (s t : Nat) : Move :=
  ⟨s, t, p, b.pieceAt t, none, .Normal⟩

/-- Modelled from the spec: knight/king moves — fixed offsets, filtered to
board bounds and to squares not holding a same-color piece
(spec section 4.2, step 1). -/
def stepMoves (b : Board) (p : EPiece) (s : Nat)
    (offs : List (Int × Int)) : List Move :=
  offs.filterMap fun d =>
    match shift s d.1 d.2 with
    | none => none
    | some t => if b.enemyOrEmpty p.color t then some (mkNormal b p s t) else none

/-- Modelled from the spec: sliding moves along one ray — every scanned
square is a destination unless it holds a same-color piece
(spec section 4.2, step 1: included as a capture if enemy). -/
def rayMoves (b : Board) (p : EPiece) (s : Nat) (d : Int × Int) : List Move :=
  (rayScan b d 7 s).filterMap fun t =>
    if b.enemyOrEmpty p.color t then some (mkNormal b p s t) else none

/-- Modelled from the spec: sliding moves in every applicable direction. -/
def sliderMoves (b : Board) (p : EPiece) (s : Nat)
    (dirs : List (Int × Int)) : List Move :=
  dirs.flatMap (rayMoves b p s)

/-- Modelled from the spec: emit a pawn advance or capture to `t`; when `t`
is on the last rank, promotion is mandatory and one move is emitted per
promotable kind (spec section 4.2: "never a non-promoting pawn move off the
last rank"). -/
def pawnEmit (b : Board) (p : EPiece) (s t : Nat) (promoRank : Nat) : List Move :=
  if t / 8 = promoRank then
    [⟨s, t, p, b.pieceAt t, some .Knight, .Normal⟩,
     ⟨s, t, p, b.pieceAt t, some .Bishop, .Normal⟩,
     ⟨s, t, p, b.pieceAt t, some .Rook, .Normal⟩,
     ⟨s, t, p, b.pieceAt t, some .Queen, .Normal⟩]
  else
    [⟨s, t, p, b.pieceAt t, none, .Normal⟩]

/-- Modelled from the spec: pawn capture toward file offset `df` — diagonal
capture onto an occupied enemy square, or onto the en-passant target square
(spec section 4.2, step 1, Pawn). -/
def pawnCapture (b : Board) (p : EPiece) (s : Nat) (df dr : Int)
    (promoRank : Nat) : List Move :=
  match shift s df dr with
  | none => []
  | some t =>
    match b.pieceAt t with
    | some q => if q.color ≠ p.color then pawnEmit b p s t promoRank else []
    | none =>
      if b.epTarget = some t then
        [⟨s, t, p, b.pieceAt ((s / 8) * 8 + t % 8), none, .EnPassantCapture⟩]
      else []

/-- Modelled from the spec: all pawn moves from square `s` — single step
onto an empty square, double step from the starting rank through two empty
squares, diagonal captures, en passant, mandatory promotion
(spec section 4.2, step 1, Pawn). -/
def pawnMoves (b : Board) (p : EPiece) (s : Nat) : List Move :=
  let dr : Int := if p.color = .White then 1 else -1
  let promoRank : Nat := if p.color = .White then 7 else 0
  let startRank : Nat := if p.color = .White then 1 else 6
  let pushes : List Move :=
    match shift s 0 dr with
    | none => []
    | some t1 =>
      if b.pieceAt t1 = none then
        pawnEmit b p s t1 promoRank ++
          (if s / 8 = startRank then
            match shift t1 0 dr with
            | some t2 =>
              if b.pieceAt t2 = none then
                [⟨s, t2, p, b.pieceAt t2, none, .DoublestepPawn⟩]
              else []
            | none => []
          else [])
      else []
  pushes ++ pawnCapture b p s (-1) dr promoRank ++ pawnCapture b p s 1 dr promoRank

/-- Modelled from the spec: castling moves for the king `p` standing on `s`
(spec section 4.2, step 1, Castling): the corresponding right must be held,
the rook must stand in its corner, the squares between them must be empty,
and the king's square and both squares it traverses must not be attacked. -/
def castleMoves (b : Board) (p : EPiece) (s : Nat) : List Move :=
  let oc := oppColor p.color
  let ks : List Move :=
    if ((p.color = .White ∧ s = 4 ∧ b.castleWK = true)
          ∨ (p.color = .Black ∧ s = 60 ∧ b.castleBK = true))
        ∧ b.pieceAt (s + 1) = none ∧ b.pieceAt (s + 2) = none
        ∧ b.pieceAt (s + 3) = some ⟨.Rook, p.color⟩
        ∧ b.isSquareAttacked s oc = false
        ∧ b.isSquareAttacked (s + 1) oc = false
        ∧ b.isSquareAttacked (s + 2) oc = false then
      [⟨s, s + 2, p, none, none, .CastleKingSide⟩]
    else []
  let qs : List Move :=
    if ((p.color = .White ∧ s = 4 ∧ b.castleWQ = true)
          ∨ (p.color = .Black ∧ s = 60 ∧ b.castleBQ = true))
        ∧ b.pieceAt (s - 1) = none ∧ b.pieceAt (s - 2) = none
        ∧ b.pieceAt (s - 3) = none
        ∧ b.pieceAt (s - 4) = some ⟨.Rook, p.color⟩
        ∧ b.isSquareAttacked s oc = false
        ∧ b.isSquareAttacked (s - 1) oc = false
        ∧ b.isSquareAttacked (s - 2) oc = false then
      [⟨s, s - 2, p, none, none, .CastleQueenSide⟩]
    else []
  ks ++ qs

/-- Modelled from the spec: pseudo-legal moves of the piece `p` standing on
square `s`, dispatched on its kind (spec section 4.2, step 1). -/
def pieceMoves (b : Board) (p : EPiece) (s : Nat) : List Move :=
  match p.kind with
  | .Pawn => pawnMoves b p s
  | .Knight => stepMoves b p s knightOffsets
  | .Bishop => sliderMoves b p s bishopDirs
  | .Rook => sliderMoves b p s rookDirs
  | .Queen => sliderMoves b p s queenDirs
  | .King => stepMoves b p s kingOffsets ++ castleMoves b p s

/-- Modelled from the spec: pseudo-legal moves available from square `s` —
nothing unless a piece of the side to move stands there. -/
def Board.movesFrom (b : Board) (s : Nat) : List Move :=
  match b.pieceAt s with
  | none => []
  | some p => if p.color = b.sideToMove then pieceMoves b p s else []

/-- Modelled from the spec: all pseudo-legal moves for the side to move, in
board scan order (spec section 4.2, step 3). -/
def Board.pseudoLegal (b : Board) : List Move :=
  (List.range 64).flatMap b.movesFrom

/-- Modelled from the spec: `Board.apply_move` of spec section 4.1 — clear
the origin, set the destination (promoting if requested), relocate the rook
for castling, remove the en-passant-captured pawn (not on the destination
square), update castling rights (any king or rook move or capture on the
relevant squares revokes the right), set or clear the en-passant target,
update the clocks and flip the side to move. -/
def Board.applyMove (b : Board) (m : Move) : Board :=
  let moved : EPiece :=
    match m.promotion with
    | some k => ⟨k, m.piece.color⟩
    | none => m.piece
  let sq2 := (b.squares.set m.fromSq none).set m.toSq (some moved)
  let sq3 :=
    match m.flag with
    | .CastleKingSide =>
      (sq2.set (m.toSq + 1) none).set (m.toSq - 1) (some ⟨.Rook, m.piece.color⟩)
    | .CastleQueenSide =>
      (sq2.set (m.toSq - 2) none).set (m.toSq + 1) (some ⟨.Rook, m.piece.color⟩)
    | .EnPassantCapture => sq2.set (epCapSq m) none
    | _ => sq2
  { squares := sq3
    sideToMove := oppColor b.sideToMove
    castleWK := b.castleWK && !(decide (m.fromSq = 4) || decide (m.fromSq = 7)
      || decide (m.toSq = 7))
    castleWQ := b.castleWQ && !(decide (m.fromSq = 4) || decide (m.fromSq = 0)
      || decide (m.toSq = 0))
    castleBK := b.castleBK && !(decide (m.fromSq = 60) || decide (m.fromSq = 63)
      || decide (m.toSq = 63))
    castleBQ := b.castleBQ && !(decide (m.fromSq = 60) || decide (m.fromSq = 56)
      || decide (m.toSq = 56))
    epTarget :=
      match m.flag with
      | .DoublestepPawn => some ((m.fromSq + m.toSq) / 2)
      | _ => none
    halfmoveClock :=
      if m.piece.kind = .Pawn || (b.pieceAt m.toSq).isSome
        || m.flag = .EnPassantCapture then 0
      else b.halfmoveClock + 1
    fullmoveNumber :=
      if m.piece.color = .Black then b.fullmoveNumber + 1 else b.fullmoveNumber }

/-- Modelled from the spec: the prior-state snapshot pushed alongside each
history entry (spec section 9): pre-move castling rights, en-passant target
and half-move clock, which are not recoverable from the Move alone. -/
structure Snapshot where
  castleWK : Bool
  castleWQ : Bool
  castleBK : Bool
  castleBQ : Bool
  epTarget : Option Nat
  halfmoveClock : Nat
deriving DecidableEq

/-- Modelled from the spec: take the snapshot of a board before applying a
move (spec section 4.1: "Game must snapshot these before applying"). -/
def Board.snapshot (b : Board) : Snapshot :=
  ⟨b.castleWK, b.castleWQ, b.castleBK, b.castleBQ, b.epTarget, b.halfmoveClock⟩

/-- Modelled from the spec: `Board.undo_move(move, prior_state)` of spec
section 4.1 — put the moving piece back on its origin (un-promoting, since
the Move records the original pawn), restore the captured piece (on the
destination, or on the en-passant square), move the castling rook back, and
restore rights, en-passant target and clocks from the snapshot. -/
def Board.undoMove (b : Board) (m : Move) (snap : Snapshot) : Board :=
  let sq1 :=
    match m.flag with
    | .CastleKingSide =>
      (b.squares.set (m.toSq - 1) none).set (m.toSq + 1) (some ⟨.Rook, m.piece.color⟩)
    | .CastleQueenSide =>
      (b.squares.set (m.toSq + 1) none).set (m.toSq - 2) (some ⟨.Rook, m.piece.color⟩)
    | .EnPassantCapture => b.squares.set (epCapSq m) m.captured
    | _ => b.squares
  let sq2 :=
    match m.flag with
    | .EnPassantCapture => sq1.set m.toSq none
    | _ => sq1.set m.toSq m.captured
  let sq3 := sq2.set m.fromSq (some m.piece)
  { squares := sq3
    sideToMove := m.piece.color
    castleWK := snap.castleWK
    castleWQ := snap.castleWQ
    castleBK := snap.castleBK
    castleBQ := snap.castleBQ
    epTarget := snap.epTarget
    halfmoveClock := snap.halfmoveClock
    fullmoveNumber :=
      if m.piece.color = .Black then b.fullmoveNumber - 1 else b.fullmoveNumber }

/-- Modelled from the spec: spec section 4.2, step 2 — filter pseudo-legal
moves to legal moves by simulating each candidate on a scratch copy and
rejecting it if the moving side's own king is attacked afterward. -/
def Board.legalMoves (b : Board) : List Move :=
  b.pseudoLegal.filter fun m => !((b.applyMove m).inCheck b.sideToMove)

/-- Modelled from the spec: the game status of spec section 3. -/
inductive GameStatus where
  | InProgress
  | Check (c : PieceColor)
  | Checkmate (c : PieceColor)
  | Stalemate
  | DrawFiftyMove
  | DrawRepetition
  | DrawInsufficientMaterial
deriving DecidableEq

/-- Modelled from the spec: the move-error taxonomy of spec section 7. -/
inductive MoveError where
  | NotPlayersTurn
  | Illegal
  | Malformed
  | GameOver
  | NoHistory
deriving DecidableEq

/-- Modelled from the spec: is a status terminal (Checkmate, Stalemate, any
Draw)?  Terminal states reject further apply_move calls. -/
def statusTerminal : GameStatus → Bool
  | .Checkmate _ => true
  | .Stalemate => true
  | .DrawFiftyMove => true
  | .DrawRepetition => true
  | .DrawInsufficientMaterial => true
  | _ => false

/-- Modelled from the spec: the repetition key of a position — piece
placement, side to move, castling rights and en-passant target
(spec section 4.3, DrawRepetition). -/
structure PosKey where
  squares : List (Option EPiece)
  sideToMove : PieceColor
  rights : Bool × Bool × Bool × Bool
  epTarget : Option Nat
deriving DecidableEq

/-- Modelled from the spec: the repetition key of a Board. -/
def Board.posKey (b : Board) : PosKey :=
  ⟨b.squares, b.sideToMove, (b.castleWK, b.castleWQ, b.castleBK, b.castleBQ),
    b.epTarget⟩

/-- Modelled from the spec: the kinds of the non-king pieces of color `c`
(for insufficient-material detection). -/
def Board.nonKingKinds (b : Board) (c : PieceColor) : List PieceKind :=
  (List.range 64).filterMap fun s =>
    match b.pieceAt s with
    | some p => if p.color = c && p.kind ≠ .King then some p.kind else none
    | none => none

/-- Modelled from the spec: neither side retains enough material to force
checkmate — king vs king, or king plus one minor piece vs king
(spec section 4.3). -/
def Board.insufficientMaterial (b : Board) : Bool :=
  let minor : PieceKind → Bool := fun k => k = .Knight || k = .Bishop
  let onlyMinor : List PieceKind → Bool := fun l =>
    match l with
    | [k] => minor k
    | _ => false
  let w := b.nonKingKinds .White
  let bl := b.nonKingKinds .Black
  (w.isEmpty && bl.isEmpty) || (bl.isEmpty && onlyMinor w)
    || (w.isEmpty && onlyMinor bl)

/-- Modelled from the spec: status recomputation after a move
(spec section 4.3): empty legal set and king attacked → Checkmate; empty and
not attacked → Stalemate; half-move clock ≥ 100 → DrawFiftyMove; current
position occurred a third time → DrawRepetition; bare material →
DrawInsufficientMaterial; own king attacked → Check; else InProgress.
`positions` holds the repetition keys of every position seen so far,
current position included. -/
def computeStatus (b : Board) (positions : List PosKey) : GameStatus :=
  let checked := b.inCheck b.sideToMove
  if b.legalMoves.isEmpty then
    if checked then .Checkmate b.sideToMove else .Stalemate
  else if b.halfmoveClock ≥ 100 then .DrawFiftyMove
  else if positions.count b.posKey ≥ 3 then .DrawRepetition
  else if b.insufficientMaterial then .DrawInsufficientMaterial
  else if checked then .Check b.sideToMove
  else .InProgress

/-- Modelled from the spec: one history entry — the applied move paired with
the prior-state snapshot (spec section 9, arena-style paired log). -/
structure HistEntry where
  mv : Move
  snap : Snapshot
deriving DecidableEq

/-- Modelled from the spec: the Game of spec section 3 — a Board, the
append-only history (most recent first), the repetition keys of all
positions seen (current first), and the derived status.  `game.rs` is an
empty stub. -/
structure Game where
  board : Board
  history : List HistEntry
  positions : List PosKey
  status : GameStatus
deriving DecidableEq

/-- Modelled from the spec: the back rank of color `c` in the standard
starting position (R N B Q K B N R from file 0). -/
def backRank (c : PieceColor) : List (Option EPiece) :=
  [some ⟨.Rook, c⟩, some ⟨.Knight, c⟩, some ⟨.Bishop, c⟩, some ⟨.Queen, c⟩,
   some ⟨.King, c⟩, some ⟨.Bishop, c⟩, some ⟨.Knight, c⟩, some ⟨.Rook, c⟩]

/-- Modelled from the spec: a rank of eight pawns of color `c`. -/
def pawnRank (c : PieceColor) : List (Option EPiece) :=
  List.replicate 8 (some ⟨.Pawn, c⟩)

/-- Modelled from the spec: the standard starting Board — White to move,
all castling rights, no en-passant target, clocks at 0 and 1. -/
def startBoard : Board :=
  { squares := backRank .White ++ pawnRank .White ++ List.replicate 32 none
      ++ pawnRank .Black ++ backRank .Black
    sideToMove := .White
    castleWK := true
    castleWQ := true
    castleBK := true
    castleBQ := true
    epTarget := none
    halfmoveClock := 0
    fullmoveNumber := 1 }

/-- Modelled from the spec: `Game::new()` — the standard starting position
(spec section 6). -/
def Game.new : Game :=
  { board := startBoard
    history := []
    positions := [startBoard.posKey]
    status := computeStatus startBoard [startBoard.posKey] }

/-- Modelled from the spec: `Game::legal_moves()` — read-only passthrough to
the move generator for the current Board (spec section 4.3). -/
def Game.legal_moves (g : Game) : List Move :=
  g.board.legalMoves

/-- Modelled from the spec: candidate equality used by apply_move —
"equality compared on from/to/flag/promotion" (spec section 4.3). -/
def sameMove (a m : Move) : Bool :=
  a.fromSq = m.fromSq && a.toSq = m.toSq && a.flag = m.flag
    && a.promotion = m.promotion

/-- Modelled from the spec: `Game::apply_move(candidate)` of spec
section 4.3 — reject with GameOver in a terminal state, with NotPlayersTurn
if the candidate piece's color is not the side to move, with Illegal if no
member of the legal set matches on from/to/flag/promotion; otherwise apply
the matching legal move, append it to history with its snapshot, record the
new repetition key and recompute the status. -/
def Game.apply_move (g : Game) (m : Move) : Except MoveError Game :=
  if statusTerminal g.status then .error .GameOver
  else if m.piece.color ≠ g.board.sideToMove then .error .NotPlayersTurn
  else
    match g.board.legalMoves.find? (sameMove · m) with
    | none => .error .Illegal
    | some lm =>
      let snap := g.board.snapshot
      let b2 := g.board.applyMove lm
      let positions2 := b2.posKey :: g.positions
      .ok { board := b2
            history := ⟨lm, snap⟩ :: g.history
            positions := positions2
            status := computeStatus b2 positions2 }

/-- Modelled from the spec: `Game::undo_last_move()` of spec section 4.3 —
NoHistory on empty history; otherwise pop the last move, undo it on the
Board with the snapshotted prior state, drop the repetition key and
recompute the status. -/
def Game.undo_last_move (g : Game) : Except MoveError Game :=
  match g.history with
  | [] => .error .NoHistory
  | e :: rest =>
    let b2 := g.board.undoMove e.mv e.snap
    let positions2 := g.positions.tail
    .ok { board := b2
          history := rest
          positions := positions2
          status := computeStatus b2 positions2 }

/-- Modelled from the spec: the mutation view of `apply_move` — the Game a
caller holds afterwards (the new state on success, the unchanged state on a
rejection, since every rejection is surfaced as a typed result and mutates
nothing). -/
def Game.applyStep (g : Game) (m : Move) : Game :=
  match g.apply_move m with
  | .ok g2 => g2
  | .error _ => g

/-- Modelled from the spec: the mutation view of `undo_last_move`. -/
def Game.undoStep (g : Game) : Game :=
  match g.undo_last_move with
  | .ok g2 => g2
  | .error _ => g

/-- Modelled from the spec: the reachable Game states — the standard
starting position, closed under accepted apply_move calls. -/
inductive Reachable : Game → Prop
  | base : Reachable Game.new
  | step {g : Game} {m : Move} {g2 : Game} :
      Reachable g → Game.apply_move g m = .ok g2 → Reachable g2

/-- The shape every generated ordinary or double-step move has: origin `s`,
moving piece `p`, and a captured field recording exactly the destination's
occupant. -/
def NormalShape (b : Board) (p : EPiece) (s : Nat) (m : Move) : Prop :=
  m.fromSq = s ∧ m.piece = p ∧ (m.flag = .Normal ∨ m.flag = .DoublestepPawn)
    ∧ m.captured = b.pieceAt m.toSq

/-- The shape every generated en-passant capture has: empty destination,
captured field recording the en-passant square's occupant, and the three
touched squares pairwise distinct. -/
def EpShape (b : Board) (p : EPiece) (s : Nat) (m : Move) : Prop :=
  m.fromSq = s ∧ m.piece = p ∧ m.flag = .EnPassantCapture
    ∧ b.pieceAt m.toSq = none ∧ m.captured = b.pieceAt (epCapSq m)
    ∧ m.fromSq ≠ m.toSq ∧ epCapSq m ≠ m.fromSq ∧ epCapSq m ≠ m.toSq

/-- The shape every generated king-side castle has: king moves two files
toward the rook, nothing captured, the traversed squares empty and the rook
in its corner. -/
def KsShape (b : Board) (p : EPiece) (s : Nat) (m : Move) : Prop :=
  m.fromSq = s ∧ m.piece = p ∧ m.flag = .CastleKingSide
    ∧ m.toSq = m.fromSq + 2 ∧ m.captured = none
    ∧ b.pieceAt (m.fromSq + 1) = none ∧ b.pieceAt (m.fromSq + 2) = none
    ∧ b.pieceAt (m.fromSq + 3) = some ⟨.Rook, p.color⟩

/-- The shape every generated queen-side castle has. -/
def QsShape (b : Board) (p : EPiece) (s : Nat) (m : Move) : Prop :=
  m.fromSq = s ∧ m.piece = p ∧ m.flag = .CastleQueenSide
    ∧ 4 ≤ m.fromSq ∧ m.toSq = m.fromSq - 2 ∧ m.captured = none
    ∧ b.pieceAt (m.fromSq - 1) = none ∧ b.pieceAt (m.fromSq - 2) = none
    ∧ b.pieceAt (m.fromSq - 4) = some ⟨.Rook, p.color⟩

/-- Board-consistency of a move: the moving piece stands on the origin, it
belongs to the side to move, and the move has one of the four generated
shapes.  Every move the generator emits satisfies this, and it is exactly
what makes undo after apply an identity. -/
def MoveOk (b : Board) (m : Move) : Prop :=
  b.pieceAt m.fromSq = some m.piece ∧ m.piece.color = b.sideToMove
    ∧ (NormalShape b m.piece m.fromSq m ∨ EpShape b m.piece m.fromSq m
        ∨ KsShape b m.piece m.fromSq m ∨ QsShape b m.piece m.fromSq m)

/-- A Game halted in a terminal status, used to exercise the GameOver
rejection path. -/
def stalledGame : Game :=
  { board := startBoard
    history := []
    positions := [startBoard.posKey]
    status := .Stalemate }

/-- The double pawn push e2–e4 in the concrete Move encoding. -/
def e2e4 : Move := ⟨12, 28, ⟨.Pawn, .White⟩, none, none, .DoublestepPawn⟩

/-- The Game after accepting e2–e4 from the starting position. -/
def e4Game : Game := Game.new.applyStep e2e4

end Engine

/-! ## Claims about the packed piece representation -/

/-- Claim C4: for every PieceKind `k` and PieceColor `c`, the piece
`Piece::new(k, c)` decodes back to exactly `k` and `c` — packing kind and
color into the single data byte and decoding them is a round-trip, so the
abstract contract of Piece is exactly the two fields. -/
theorem piece_pack_roundtrip (k : PieceKind) (c : PieceColor) :
    (Piece.new k c).kind = some k ∧ (Piece.new k c).color = some c := by
  cases k <;> cases c <;> exact ⟨rfl, rfl⟩

/-- Claim C5: two pieces built by `Piece::new` are equal under the derived
byte-wise equality on the packed data field if and only if their kinds and
colors are equal. -/
theorem piece_eq_iff (k1 k2 : PieceKind) (c1 c2 : PieceColor) :
    Piece.new k1 c1 = Piece.new k2 c2 ↔ (k1 = k2 ∧ c1 = c2) := by
  cases k1 <;> cases k2 <;> cases c1 <;> cases c2 <;> simp_all <;> decide

/-- Witness for claim C5 at a concrete input: a black knight equals a black
knight, and the equality forces equal kind and color. -/
theorem piece_eq_iff_witness :
    Piece.new .Knight .Black = Piece.new .Knight .Black
      ∧ (Piece.new .Queen .White = Piece.new .Queen .White
          → PieceKind.Queen = PieceKind.Queen ∧ PieceColor.White = PieceColor.White) :=
  ⟨(piece_eq_iff .Knight .Knight .Black .Black).mpr ⟨rfl, rfl⟩,
    fun h => (piece_eq_iff .Queen .Queen .White .White).mp h⟩

/-- Claim C6: for every piece built by the public constructor `Piece::new`,
the value `data & 0b111` read by `kind()` is at most 5 and the value
`data >> 7` read by `color()` is at most 1, so the unsafe transmutes always
hit a valid discriminant (the undefined-behaviour branch, modelled as
`none`, is unreachable). -/
theorem piece_transmute_safe (k : PieceKind) (c : PieceColor) :
    ((Piece.new k c).data &&& 0b111) ≤ 5 ∧ ((Piece.new k c).data >>> 7) ≤ 1
      ∧ ((Piece.new k c).kind).isSome ∧ ((Piece.new k c).color).isSome := by
  cases k <;> cases c <;> exact ⟨by decide, by decide, rfl, rfl⟩

/-! ## Claims about two_sum -/

/-- The inner scan misses exactly when no index from `j` on completes a pair
with `i`. -/
theorem twoSumInner_eq_none (nums : List Int) (target : Int) (i : Nat) (j : Nat) :
    twoSumInner nums target i j = none ↔
      ∀ j2, j ≤ j2 → j2 < nums.length → wrapI32 (nums.getD i 0 + nums.getD j2 0) ≠ target := by
  induction j using twoSumInner.induct nums target i with
  | case1 x hx hhit =>
    rw [twoSumInner]
    simp only [hx, dif_pos, if_pos hhit]
    constructor
    · intro h; exact absurd h (by simp)
    · intro h; exact absurd hhit (h x le_rfl hx)
  | case2 x hx hmiss ih =>
    rw [twoSumInner]
    simp only [hx, dif_pos, if_neg hmiss]
    rw [ih]
    constructor
    · intro h j2 hj2 hlt
      rcases Nat.eq_or_lt_of_le hj2 with rfl | hgt
      · exact hmiss
      · exact h j2 hgt hlt
    · intro h j2 hj2 hlt
      exact h j2 (Nat.le_of_succ_le hj2) hlt
  | case3 x hx =>
    rw [twoSumInner]
    simp only [hx, dif_neg, not_false_iff]
    constructor
    · intro _ j2 hj2 hlt
      exact absurd (Nat.lt_of_le_of_lt hj2 hlt) (by omega)
    · intro _; trivial

/-- When the inner scan hits, it returns `i` paired with the first index from
`j` on that completes the sum. -/
theorem twoSumInner_eq_some (nums : List Int) (target : Int) (i : Nat) (j : Nat)
    (a b : Nat) (h : twoSumInner nums target i j = some (a, b)) :
    a = i ∧ j ≤ b ∧ b < nums.length ∧ wrapI32 (nums.getD i 0 + nums.getD b 0) = target ∧
      ∀ j2, j ≤ j2 → j2 < b → wrapI32 (nums.getD i 0 + nums.getD j2 0) ≠ target := by
  induction j using twoSumInner.induct nums target i with
  | case1 x hx hhit =>
    rw [twoSumInner] at h
    simp only [hx, dif_pos, if_pos hhit, Option.some_inj] at h
    injection h with h1 h2
    subst h1
    subst h2
    exact ⟨rfl, le_rfl, hx, hhit,
      fun j2 g1 g2 => absurd (Nat.lt_of_le_of_lt g1 g2) (lt_irrefl _)⟩
  | case2 x hx hmiss ih =>
    rw [twoSumInner] at h
    simp only [hx, dif_pos, if_neg hmiss] at h
    obtain ⟨ha, hb, hlen, hsum, hmin⟩ := ih h
    refine ⟨ha, Nat.le_of_succ_le hb, hlen, hsum, fun j2 h1 h2 => ?_⟩
    rcases Nat.eq_or_lt_of_le h1 with rfl | hgt
    · exact hmiss
    · exact hmin j2 hgt h2
  | case3 x hx =>
    rw [twoSumInner] at h
    simp [hx] at h

/-- The outer scan misses exactly when no pair `a < b` with `a ≥ i` sums to
the target. -/
theorem twoSumOuter_eq_none (nums : List Int) (target : Int) (i : Nat) :
    twoSumOuter nums target i = none ↔
      ∀ a b, i ≤ a → a < b → b < nums.length →
        wrapI32 (nums.getD a 0 + nums.getD b 0) ≠ target := by
  induction i using twoSumOuter.induct nums target with
  | case1 x hx p hp =>
    obtain ⟨pa, pb⟩ := p
    rw [twoSumOuter]
    simp only [hx, dif_pos, hp]
    constructor
    · intro h; exact absurd h (by simp)
    · intro h
      obtain ⟨ha, hb, hlen, hsum, -⟩ :=
        twoSumInner_eq_some nums target x (x + 1) pa pb hp
      subst ha
      exact absurd hsum (h pa pb le_rfl hb hlen)
  | case2 x hx hp ih =>
    rw [twoSumOuter]
    simp only [hx, dif_pos, hp]
    rw [ih]
    constructor
    · intro h a b h1 h2 h3
      rcases Nat.eq_or_lt_of_le h1 with heq | hgt
      · subst heq
        exact (twoSumInner_eq_none nums target x (x + 1)).mp hp b h2 h3
      · exact h a b hgt h2 h3
    · intro h a b h1 h2 h3
      exact h a b (Nat.le_of_succ_le h1) h2 h3
  | case3 x hx =>
    rw [twoSumOuter]
    simp only [hx, dif_neg, not_false_iff]
    constructor
    · intro _ a b h1 h2 h3
      exact absurd (Nat.lt_of_le_of_lt (Nat.le_trans h1 (Nat.le_of_lt h2)) h3) (by omega)
    · intro _; trivial

/-- When the outer scan hits, it returns the first pair in nested scan order:
smallest `a`, then smallest `b` for that `a`. -/
theorem twoSumOuter_eq_some (nums : List Int) (target : Int) (i : Nat)
    (a b : Nat) (h : twoSumOuter nums target i = some (a, b)) :
    i ≤ a ∧ a < b ∧ b < nums.length ∧ wrapI32 (nums.getD a 0 + nums.getD b 0) = target ∧
      ∀ a2 b2, i ≤ a2 → a2 < b2 → b2 < nums.length →
        wrapI32 (nums.getD a2 0 + nums.getD b2 0) = target →
        (a < a2 ∨ (a = a2 ∧ b ≤ b2)) := by
  induction i using twoSumOuter.induct nums target with
  | case1 x hx p hp =>
    rw [twoSumOuter] at h
    simp only [hx, dif_pos, hp, Option.some_inj] at h
    subst h
    obtain ⟨ha, hb, hlen, hsum, hmin⟩ :=
      twoSumInner_eq_some nums target x (x + 1) a b hp
    subst ha
    refine ⟨le_rfl, hb, hlen, hsum, fun a2 b2 h1 h2 h3 h4 => ?_⟩
    rcases Nat.eq_or_lt_of_le h1 with rfl | hgt
    · right
      refine ⟨rfl, ?_⟩
      by_contra hlt
      exact hmin b2 h2 (Nat.lt_of_not_le hlt) h4
    · left; exact hgt
  | case2 x hx hp ih =>
    rw [twoSumOuter] at h
    simp only [hx, dif_pos, hp] at h
    obtain ⟨h1, h2, h3, h4, h5⟩ := ih h
    refine ⟨Nat.le_of_succ_le h1, h2, h3, h4, fun a2 b2 g1 g2 g3 g4 => ?_⟩
    rcases Nat.eq_or_lt_of_le g1 with heq | hgt
    · subst heq
      exact absurd g4 ((twoSumInner_eq_none nums target x (x + 1)).mp hp b2 g2 g3)
    · exact h5 a2 b2 hgt g2 g3 g4
  | case3 x hx =>
    rw [twoSumOuter] at h
    simp [hx] at h

/-- Claim C10: `two_sum(nums, target)` returns `Some((i, j))` only if
`i < j < nums.len()` and `nums[i] + nums[j] == target`; it returns `None`
exactly when no pair of distinct indices sums to the target; and whenever
solutions exist it returns the lexicographically smallest pair `(i, j)`,
matching its nested scan order.  Throughout, `nums[i] + nums[j]` is the
`i32` addition the program performs, which wraps on overflow. -/
theorem two_sum_spec (nums : List Int) (target : Int) :
    (∀ a b, two_sum nums target = some (a, b) →
      a < b ∧ b < nums.length ∧ wrapI32 (nums.getD a 0 + nums.getD b 0) = target ∧
        ∀ a2 b2, a2 < b2 → b2 < nums.length →
          wrapI32 (nums.getD a2 0 + nums.getD b2 0) = target →
          (a < a2 ∨ (a = a2 ∧ b ≤ b2)))
    ∧ (two_sum nums target = none ↔
      ¬ ∃ a b, a ≠ b ∧ a < nums.length ∧ b < nums.length ∧
        wrapI32 (nums.getD a 0 + nums.getD b 0) = target) := by
  constructor
  · intro a b h
    obtain ⟨-, h2, h3, h4, h5⟩ := twoSumOuter_eq_some nums target 0 a b h
    exact ⟨h2, h3, h4, fun a2 b2 g1 g2 g3 => h5 a2 b2 (Nat.zero_le _) g1 g2 g3⟩
  · rw [show two_sum nums target = twoSumOuter nums target 0 from rfl,
      twoSumOuter_eq_none]
    constructor
    · rintro h ⟨a, b, hne, ha, hb, hsum⟩
      rcases Nat.lt_or_ge a b with hab | hab
      · exact h a b (Nat.zero_le _) hab hb hsum
      · have hba : b < a := Nat.lt_of_le_of_ne hab (fun e => hne e.symm)
        exact h b a (Nat.zero_le _) hba ha (by rw [Int.add_comm]; exact hsum)
    · intro h a b _ hab hb hsum
      exact h ⟨a, b, Nat.ne_of_lt hab, Nat.lt_trans hab hb, hb, hsum⟩

/-- Witness for claim C10 at the repository's own test fixture
`[2, 7, 11, 15]` with target 9: the scan returns `(0, 1)` with `0 < 1 < 4`
and the `i32` sum `2 + 7 = 9`. -/
theorem two_sum_spec_witness :
    0 < 1 ∧ 1 < ([2, 7, 11, 15] : List Int).length
      ∧ wrapI32 (([2, 7, 11, 15] : List Int).getD 0 0
          + ([2, 7, 11, 15] : List Int).getD 1 0) = 9 :=
  have hrun : two_sum [2, 7, 11, 15] 9 = some (0, 1) := by
    show twoSumOuter [2, 7, 11, 15] 9 0 = some (0, 1)
    rw [twoSumOuter, twoSumInner]
    norm_num [List.getD, wrapI32]
  have h := (two_sum_spec [2, 7, 11, 15] 9).1 0 1 hrun
  ⟨h.1, h.2.1, h.2.2.1⟩

/-! ## Claims about the engine state machine -/

namespace Engine

/-- Claim C1: for every reachable Game state, `legal_moves()` contains no
move whose application leaves the moving side's own king attacked by the
opponent — the legality filter simulates each candidate and rejects
self-check. -/
theorem legal_moves_safe (g : Game) (_h : Reachable g) (m : Move)
    (hm : m ∈ g.legal_moves) :
    (g.board.applyMove m).inCheck g.board.sideToMove = false := by
  have h2 := (List.mem_filter.mp hm).2
  simpa using h2

/-- Witness for claim C1: the starting position is reachable, the double
pawn push e2–e4 is one of its legal moves, and applying it leaves White's
king unattacked. -/
theorem legal_moves_safe_witness :
    (⟨12, 28, ⟨.Pawn, .White⟩, none, none, .DoublestepPawn⟩ : Move)
        ∈ Game.new.legal_moves
      ∧ (Game.new.board.applyMove
            ⟨12, 28, ⟨.Pawn, .White⟩, none, none, .DoublestepPawn⟩).inCheck
          Game.new.board.sideToMove = false :=
  ⟨by decide, legal_moves_safe Game.new Reachable.base _ (by decide)⟩

/-- Claim C2: from the standard starting position produced by `Game::new()`,
`legal_moves()` returns exactly 20 moves. -/
theorem start_position_twenty_moves : Game.new.legal_moves.length = 20 := by
  decide

/-- Claim C7: `undo_last_move()` fails with `MoveError::NoHistory` exactly
when the history is empty, and in that case the Game state is unchanged
(the rejection is a typed result and mutates nothing). -/
theorem undo_no_history (g : Game) :
    (g.undo_last_move = .error .NoHistory ↔ g.history = [])
      ∧ (g.history = [] → g.undoStep = g) := by
  obtain ⟨b, hist, pos, st⟩ := g
  cases hist with
  | nil => exact ⟨⟨fun _ => rfl, fun _ => rfl⟩, fun _ => rfl⟩
  | cons e rest =>
    refine ⟨⟨fun h => ?_, fun h => by cases h⟩, fun h => by cases h⟩
    exact absurd h (by simp [Game.undo_last_move])

/-- Witness for claim C7: a fresh game has empty history, so undo is
rejected with NoHistory and the state is unchanged. -/
theorem undo_no_history_witness :
    Game.new.undo_last_move = .error .NoHistory
      ∧ Game.new.undoStep = Game.new :=
  ⟨(undo_no_history Game.new).1.mpr rfl, (undo_no_history Game.new).2 rfl⟩

/-- Claim C8: every Game whose status is terminal (Checkmate, Stalemate or
any Draw) rejects every `apply_move` call with `MoveError::GameOver` and
keeps its state unchanged. -/
theorem terminal_rejects (g : Game) (m : Move)
    (h : statusTerminal g.status = true) :
    g.apply_move m = .error .GameOver ∧ g.applyStep m = g := by
  have h1 : g.apply_move m = .error .GameOver := by
    rw [Game.apply_move, if_pos h]
  exact ⟨h1, by rw [Game.applyStep, h1]⟩

/-- Witness for claim C8: a stalled game rejects the pawn push e2–e4 with
GameOver and is unchanged. -/
theorem terminal_rejects_witness :
    stalledGame.apply_move
        ⟨12, 28, ⟨.Pawn, .White⟩, none, none, .DoublestepPawn⟩
      = .error .GameOver
      ∧ stalledGame.applyStep
          ⟨12, 28, ⟨.Pawn, .White⟩, none, none, .DoublestepPawn⟩ = stalledGame :=
  terminal_rejects stalledGame _ (by decide)

/-- Claim C9: `apply_move`, `legal_moves` and `undo_last_move` are
deterministic pure functions of the Game state — equal states yield equal
results and equal successor states — and `legal_moves` always returns a
finite sequence (a materialized list, whose length exists). -/
theorem engine_deterministic (g1 g2 : Game) (h : g1 = g2) :
    g1.legal_moves = g2.legal_moves
      ∧ (∀ m, g1.apply_move m = g2.apply_move m)
      ∧ g1.undo_last_move = g2.undo_last_move
      ∧ (∀ m, g1.applyStep m = g2.applyStep m)
      ∧ ∃ n, g1.legal_moves.length = n := by
  subst h
  exact ⟨rfl, fun _ => rfl, rfl, fun _ => rfl, ⟨_, rfl⟩⟩

/-- Witness for claim C9: two runs on the fresh game agree. -/
theorem engine_deterministic_witness :
    Game.new.legal_moves = Game.new.legal_moves
      ∧ Game.new.undo_last_move = Game.new.undo_last_move :=
  have h := engine_deterministic Game.new Game.new rfl
  ⟨h.1, h.2.2.1⟩

end Engine

namespace Engine

/-- Writing back the value a list already holds at an index (with default
for the out-of-range case) changes nothing. -/
theorem list_set_getD_self {α : Type} (l : List α) (i : Nat) (d : α) :
    l.set i (l.getD i d) = l := by
  apply List.ext_getElem?
  intro n
  rw [List.getElem?_set]
  by_cases h : i = n
  · subst h
    by_cases hl : i < l.length
    · simp [hl, List.getD_eq_getElem?_getD, List.getElem?_eq_getElem hl]
    · simp [hl, List.getElem?_eq_none_iff.mpr (Nat.le_of_not_lt hl)]
  · simp [h]

/-- Squares round trip for ordinary and double-step moves: clear the origin,
write the destination, then restore the recorded capture and put the mover
back. -/
theorem squares_rt_normal (sq : List (Option EPiece)) (f t : Nat)
    (p mvd : EPiece) (cap : Option EPiece)
    (hfrom : sq.getD f none = some p) (hcap : cap = sq.getD t none) :
    (((sq.set f none).set t (some mvd)).set t cap).set f (some p) = sq := by
  rw [List.set_set]
  by_cases hft : f = t
  · subst hft
    simp only [List.set_set]
    rw [← hfrom]
    exact list_set_getD_self sq f none
  · rw [List.set_comm none cap sq hft, hcap, list_set_getD_self sq t none,
      List.set_set, ← hfrom]
    exact list_set_getD_self sq f none

/-- Squares round trip for en-passant captures: the destination was empty,
the captured pawn sat on `c`, and the three squares are pairwise distinct. -/
theorem squares_rt_ep (sq : List (Option EPiece)) (f t c : Nat)
    (p mvd : EPiece) (cap : Option EPiece)
    (hfrom : sq.getD f none = some p) (hto : sq.getD t none = none)
    (hcap : cap = sq.getD c none)
    (hft : f ≠ t) (hcf : c ≠ f) (hct : c ≠ t) :
    (((((sq.set f none).set t (some mvd)).set c none).set c cap).set t
      none).set f (some p) = sq := by
  have ef : sq.set f (some p) = sq := hfrom ▸ list_set_getD_self sq f none
  have et : sq.set t none = sq := hto ▸ list_set_getD_self sq t none
  have ec : sq.set c cap = sq := by rw [hcap]; exact list_set_getD_self sq c none
  simp only [List.set_set]
  rw [List.set_comm (some mvd) cap ((sq.set f none)) (fun h => hct h.symm)]
  simp only [List.set_set]
  rw [List.set_comm none cap sq (fun h => hcf h.symm), ec,
    List.set_comm none none sq hft, List.set_set, et, ef]

/-- Squares round trip for king-side castling: king from `a` to `a+2`, rook
from `a+3` to `a+1`, all four squares restored. -/
theorem squares_rt_ks (sq : List (Option EPiece)) (a : Nat) (p mvd rkv : EPiece)
    (hf : sq.getD a none = some p) (h1 : sq.getD (a + 1) none = none)
    (h2 : sq.getD (a + 2) none = none)
    (h3 : sq.getD (a + 3) none = some rkv) :
    (((((((sq.set a none).set (a + 2) (some mvd)).set (a + 3) none).set (a + 1)
          (some rkv)).set (a + 1) none).set (a + 3) (some rkv)).set (a + 2)
        none).set a (some p) = sq := by
  have h3l : a + 3 < sq.length := by
    by_contra hc
    rw [List.getD_eq_getElem?_getD, List.getElem?_eq_none_iff.mpr (by omega)] at h3
    cases h3
  have hf' : sq[a]? = some (some p) := by
    rw [List.getD_eq_getElem?_getD] at hf
    rw [List.getElem?_eq_getElem (by omega)] at hf ⊢
    simpa using hf
  have h1' : sq[a + 1]? = some none := by
    rw [List.getD_eq_getElem?_getD] at h1
    rw [List.getElem?_eq_getElem (by omega)] at h1 ⊢
    simpa using h1
  have h2' : sq[a + 2]? = some none := by
    rw [List.getD_eq_getElem?_getD] at h2
    rw [List.getElem?_eq_getElem (by omega)] at h2 ⊢
    simpa using h2
  have h3' : sq[a + 3]? = some (some rkv) := by
    rw [List.getD_eq_getElem?_getD] at h3
    rw [List.getElem?_eq_getElem (by omega)] at h3 ⊢
    simpa using h3
  apply List.ext_getElem?
  intro n
  simp only [List.getElem?_set, List.length_set]
  by_cases e0 : a = n
  · subst e0
    simp [show a < sq.length by omega, hf']
  · by_cases e1 : a + 1 = n
    · rw [if_neg e0, if_neg (by omega), if_neg (by omega), if_pos e1,
        if_pos (by omega), ← e1, h1']
    · by_cases e2 : a + 2 = n
      · rw [if_neg e0, if_pos e2, if_pos (by omega), ← e2, h2']
      · by_cases e3 : a + 3 = n
        · rw [if_neg e0, if_neg e2, if_pos e3, if_pos (by omega), ← e3, h3']
        · rw [if_neg e0, if_neg e2, if_neg e3, if_neg e1, if_neg e1, if_neg e3,
            if_neg e2, if_neg e0]

/-- Squares round trip for queen-side castling: king from `a` to `a-2`, rook
from `a-4` to `a-1`, all four squares restored (`a ≥ 4`). -/
theorem squares_rt_qs (sq : List (Option EPiece)) (a : Nat) (p mvd rkv : EPiece)
    (ha : 4 ≤ a)
    (hf : sq.getD a none = some p) (h1 : sq.getD (a - 1) none = none)
    (h2 : sq.getD (a - 2) none = none)
    (h4 : sq.getD (a - 4) none = some rkv) :
    (((((((sq.set a none).set (a - 2) (some mvd)).set (a - 4) none).set (a - 1)
          (some rkv)).set (a - 1) none).set (a - 4) (some rkv)).set (a - 2)
        none).set a (some p) = sq := by
  have hal : a < sq.length := by
    by_contra hc
    rw [List.getD_eq_getElem?_getD, List.getElem?_eq_none_iff.mpr (by omega)] at hf
    cases hf
  have hf' : sq[a]? = some (some p) := by
    rw [List.getD_eq_getElem?_getD] at hf
    rw [List.getElem?_eq_getElem (by omega)] at hf ⊢
    simpa using hf
  have h1' : sq[a - 1]? = some none := by
    rw [List.getD_eq_getElem?_getD] at h1
    rw [List.getElem?_eq_getElem (by omega)] at h1 ⊢
    simpa using h1
  have h2' : sq[a - 2]? = some none := by
    rw [List.getD_eq_getElem?_getD] at h2
    rw [List.getElem?_eq_getElem (by omega)] at h2 ⊢
    simpa using h2
  have h4' : sq[a - 4]? = some (some rkv) := by
    rw [List.getD_eq_getElem?_getD] at h4
    rw [List.getElem?_eq_getElem (by omega)] at h4 ⊢
    simpa using h4
  apply List.ext_getElem?
  intro n
  simp only [List.getElem?_set, List.length_set]
  by_cases e0 : a = n
  · subst e0
    simp [show a < sq.length by omega, hf']
  · by_cases e1 : a - 1 = n
    · rw [if_neg e0, if_neg (by omega), if_neg (by omega), if_pos e1,
        if_pos (by omega), ← e1, h1']
    · by_cases e2 : a - 2 = n
      · rw [if_neg e0, if_pos e2, if_pos (by omega), ← e2, h2']
      · by_cases e4 : a - 4 = n
        · rw [if_neg e0, if_neg e2, if_pos e4, if_pos (by omega), ← e4, h4']
        · rw [if_neg e0, if_neg e2, if_neg e4, if_neg e1, if_neg e1, if_neg e4,
            if_neg e2, if_neg e0]

/-- Undo after apply is the identity on the Board for every board-consistent
move: placement, side to move, castling rights, en-passant target and both
counters are restored. -/
theorem undoMove_applyMove (b : Board) (m : Move) (h : MoveOk b m) :
    (b.applyMove m).undoMove m b.snapshot = b := by
  obtain ⟨hfrom, hcolor, hshape⟩ := h
  obtain ⟨sq, stm, wk, wq, bk, bq, ep, hc, fn⟩ := b
  obtain ⟨f, t, p, cap, promo, flag⟩ := m
  simp only [Board.pieceAt] at hfrom
  dsimp only at hcolor
  simp only [NormalShape, EpShape, KsShape, QsShape, Board.pieceAt, epCapSq,
    eq_self_iff_true, true_and] at hshape
  rcases hshape with hs | hs | hs | hs
  · obtain ⟨hfl, hcap⟩ := hs
    rcases hfl with hfl | hfl <;> subst hfl <;>
      · simp only [Board.applyMove, Board.undoMove, Board.snapshot]
        exact (Board.mk.injEq ..).mpr
          ⟨squares_rt_normal sq f t p _ cap hfrom hcap, hcolor,
            rfl, rfl, rfl, rfl, rfl, rfl,
            by cases hcp : p.color <;> simp [hcp]⟩
  · obtain ⟨hfl, hto, hcap, hft, hcf, hct⟩ := hs
    subst hfl
    simp only [Board.applyMove, Board.undoMove, Board.snapshot, epCapSq]
    exact (Board.mk.injEq ..).mpr
      ⟨squares_rt_ep sq f t ((f / 8) * 8 + t % 8) p _ cap hfrom hto hcap
          hft hcf hct, hcolor, rfl, rfl, rfl, rfl, rfl, rfl,
        by cases hcp : p.color <;> simp [hcp]⟩
  · obtain ⟨hfl, ht2, hcapn, hp1, hp2, hp3⟩ := hs
    subst hfl
    subst ht2
    subst hcapn
    simp only [Board.applyMove, Board.undoMove, Board.snapshot]
    have e1 : f + 2 + 1 = f + 3 := by omega
    have e2 : f + 2 - 1 = f + 1 := by omega
    rw [e1, e2]
    exact (Board.mk.injEq ..).mpr
      ⟨squares_rt_ks sq f p _ ⟨.Rook, p.color⟩ hfrom hp1 hp2 hp3, hcolor,
        rfl, rfl, rfl, rfl, rfl, rfl,
        by cases hcp : p.color <;> simp [hcp]⟩
  · obtain ⟨hfl, ha, ht2, hcapn, hp1, hp2, hp4⟩ := hs
    subst hfl
    subst ht2
    subst hcapn
    simp only [Board.applyMove, Board.undoMove, Board.snapshot]
    have e1 : f - 2 + 1 = f - 1 := by omega
    have e2 : f - 2 - 2 = f - 4 := by omega
    rw [e1, e2]
    exact (Board.mk.injEq ..).mpr
      ⟨squares_rt_qs sq f p _ ⟨.Rook, p.color⟩ ha hfrom hp1 hp2 hp4, hcolor,
        rfl, rfl, rfl, rfl, rfl, rfl,
        by cases hcp : p.color <;> simp [hcp]⟩

/-- What a successful square shift means arithmetically: the target is on
the board, its file moved by `df` and its rank by `dr`. -/
theorem shift_some {s : Nat} {df dr : Int} {t : Nat}
    (h : shift s df dr = some t) :
    t < 64 ∧ ((t % 8 : Nat) : Int) = ((s % 8 : Nat) : Int) + df
      ∧ ((t / 8 : Nat) : Int) = ((s / 8 : Nat) : Int) + dr := by
  unfold shift at h
  dsimp only at h
  split_ifs at h with hcond
  obtain ⟨h1, h2, h3, h4⟩ := hcond
  injection h with h
  subst h
  refine ⟨by omega, by omega, by omega⟩

/-- Every move emitted by the knight/king offset generator has the ordinary
shape. -/
theorem mem_stepMoves {b : Board} {p : EPiece} {s : Nat}
    {offs : List (Int × Int)} {m : Move} (h : m ∈ stepMoves b p s offs) :
    NormalShape b p s m := by
  unfold stepMoves at h
  rw [List.mem_filterMap] at h
  obtain ⟨d, -, hd⟩ := h
  cases hsh : shift s d.1 d.2 with
  | none => rw [hsh] at hd; cases hd
  | some t =>
    rw [hsh] at hd
    dsimp only at hd
    split_ifs at hd
    injection hd with hd
    subst hd
    exact ⟨rfl, rfl, Or.inl rfl, rfl⟩

/-- Every move emitted along one sliding ray has the ordinary shape. -/
theorem mem_rayMoves {b : Board} {p : EPiece} {s : Nat} {d : Int × Int}
    {m : Move} (h : m ∈ rayMoves b p s d) : NormalShape b p s m := by
  unfold rayMoves at h
  rw [List.mem_filterMap] at h
  obtain ⟨t, -, hd⟩ := h
  split_ifs at hd
  injection hd with hd
  subst hd
  exact ⟨rfl, rfl, Or.inl rfl, rfl⟩

/-- Every move emitted by the slider generator has the ordinary shape. -/
theorem mem_sliderMoves {b : Board} {p : EPiece} {s : Nat}
    {dirs : List (Int × Int)} {m : Move} (h : m ∈ sliderMoves b p s dirs) :
    NormalShape b p s m := by
  unfold sliderMoves at h
  rw [List.mem_flatMap] at h
  obtain ⟨d, -, hd⟩ := h
  exact mem_rayMoves hd

/-- Every move emitted by the pawn advance/capture emitter has the ordinary
shape. -/
theorem mem_pawnEmit {b : Board} {p : EPiece} {s t : Nat} {pr : Nat}
    {m : Move} (h : m ∈ pawnEmit b p s t pr) : NormalShape b p s m := by
  unfold pawnEmit at h
  split_ifs at h <;>
    simp only [List.mem_cons, List.mem_singleton, List.not_mem_nil,
      or_false] at h <;>
    rcases h with rfl | rfl | rfl | rfl <;>
    exact ⟨rfl, rfl, Or.inl rfl, rfl⟩

/-- Every move emitted by the pawn capture generator (for a unit file offset
and unit rank direction) is an ordinary capture or a well-formed en-passant
capture. -/
theorem mem_pawnCapture {b : Board} {p : EPiece} {s : Nat} {df dr : Int}
    {pr : Nat} {m : Move} (hdf : df = -1 ∨ df = 1) (hdr : dr = -1 ∨ dr = 1)
    (h : m ∈ pawnCapture b p s df dr pr) :
    NormalShape b p s m ∨ EpShape b p s m := by
  unfold pawnCapture at h
  cases hsh : shift s df dr with
  | none => rw [hsh] at h; cases h
  | some t =>
    rw [hsh] at h
    dsimp only at h
    obtain ⟨ht64, hfile, hrank⟩ := shift_some hsh
    cases hq : b.pieceAt t with
    | some q =>
      rw [hq] at h
      dsimp only at h
      split_ifs at h
      · exact Or.inl (mem_pawnEmit h)
      · cases h
    | none =>
      rw [hq] at h
      dsimp only at h
      split_ifs at h
      · simp only [List.mem_singleton] at h
        subst h
        refine Or.inr ⟨rfl, rfl, rfl, hq, rfl, ?_, ?_, ?_⟩
        · show s ≠ t
          rcases hdf with rfl | rfl <;> omega
        · show epCapSq _ ≠ _
          simp only [epCapSq]
          rcases hdf with rfl | rfl <;> omega
        · show epCapSq _ ≠ _
          simp only [epCapSq]
          rcases hdr with rfl | rfl <;> omega
      · cases h

/-- Every move emitted by the pawn generator is an ordinary move or a
well-formed en-passant capture. -/
theorem mem_pawnMoves {b : Board} {p : EPiece} {s : Nat} {m : Move}
    (h : m ∈ pawnMoves b p s) :
    NormalShape b p s m ∨ EpShape b p s m := by
  have hdr : (if p.color = .White then (1 : Int) else -1) = -1
      ∨ (if p.color = .White then (1 : Int) else -1) = 1 := by
    cases hpc : p.color <;> simp [hpc]
  unfold pawnMoves at h
  dsimp only at h
  simp only [List.mem_append] at h
  rcases h with (h | h) | h
  · cases hsh : shift s 0 (if p.color = .White then (1 : Int) else -1) with
    | none => rw [hsh] at h; cases h
    | some t1 =>
      rw [hsh] at h
      dsimp only at h
      by_cases h1 : b.pieceAt t1 = none
      case neg => rw [if_neg h1] at h; cases h
      rw [if_pos h1] at h
      rw [List.mem_append] at h
      rcases h with h | h
      · exact Or.inl (mem_pawnEmit h)
      · repeat' split at h
        all_goals
          first
          | (simp only [List.mem_singleton] at h
             subst h
             exact Or.inl ⟨rfl, rfl, Or.inr rfl, rfl⟩)
          | cases h
  · exact mem_pawnCapture (Or.inl rfl) hdr h
  · exact mem_pawnCapture (Or.inr rfl) hdr h

/-- Every move emitted by the castling generator is a well-formed castle. -/
theorem mem_castleMoves {b : Board} {p : EPiece} {s : Nat} {m : Move}
    (h : m ∈ castleMoves b p s) :
    KsShape b p s m ∨ QsShape b p s m := by
  unfold castleMoves at h
  dsimp only at h
  rw [List.mem_append] at h
  rcases h with h | h
  · split at h
    · rename_i hcond
      obtain ⟨-, h1, h2, h3, -⟩ := hcond
      simp only [List.mem_singleton] at h
      subst h
      exact Or.inl ⟨rfl, rfl, rfl, rfl, rfl, h1, h2, h3⟩
    · cases h
  · split at h
    · rename_i hcond
      obtain ⟨hhome, h1, h2, -, h4, -⟩ := hcond
      have ha4 : 4 ≤ s := by
        rcases hhome with ⟨-, hs4, -⟩ | ⟨-, hs60, -⟩ <;> omega
      simp only [List.mem_singleton] at h
      subst h
      exact Or.inr ⟨rfl, rfl, rfl, ha4, rfl, rfl, h1, h2, h4⟩
    · cases h

/-- Every move emitted for a single piece has one of the four shapes. -/
theorem mem_pieceMoves {b : Board} {p : EPiece} {s : Nat} {m : Move}
    (h : m ∈ pieceMoves b p s) :
    NormalShape b p s m ∨ EpShape b p s m ∨ KsShape b p s m
      ∨ QsShape b p s m := by
  unfold pieceMoves at h
  cases hk : p.kind <;> rw [hk] at h <;> dsimp only at h
  case Pawn =>
    rcases mem_pawnMoves h with h1 | h1
    · exact Or.inl h1
    · exact Or.inr (Or.inl h1)
  case Knight => exact Or.inl (mem_stepMoves h)
  case Bishop => exact Or.inl (mem_sliderMoves h)
  case Rook => exact Or.inl (mem_sliderMoves h)
  case Queen => exact Or.inl (mem_sliderMoves h)
  case King =>
    rw [List.mem_append] at h
    rcases h with h | h
    · exact Or.inl (mem_stepMoves h)
    · rcases mem_castleMoves h with h1 | h1
      · exact Or.inr (Or.inr (Or.inl h1))
      · exact Or.inr (Or.inr (Or.inr h1))

/-- Every pseudo-legal move is board-consistent. -/
theorem pseudoLegal_moveOk {b : Board} {m : Move} (h : m ∈ b.pseudoLegal) :
    MoveOk b m := by
  unfold Board.pseudoLegal at h
  rw [List.mem_flatMap] at h
  obtain ⟨s, -, hm⟩ := h
  unfold Board.movesFrom at hm
  cases hp : b.pieceAt s with
  | none => rw [hp] at hm; cases hm
  | some p =>
    rw [hp] at hm
    dsimp only at hm
    by_cases hcol : p.color = b.sideToMove
    case neg => rw [if_neg hcol] at hm; cases hm
    rw [if_pos hcol] at hm
    have hsh := mem_pieceMoves hm
    have hf : m.fromSq = s := by
      rcases hsh with h1 | h1 | h1 | h1 <;> exact h1.1
    have hpc : m.piece = p := by
      rcases hsh with h1 | h1 | h1 | h1 <;> exact h1.2.1
    refine ⟨?_, ?_, ?_⟩
    · rw [hf, hpc, hp]
    · rw [hpc]; exact hcol
    · rw [hf, hpc]
      exact hsh

/-- Every legal move is board-consistent. -/
theorem legalMoves_moveOk {b : Board} {m : Move} (h : m ∈ b.legalMoves) :
    MoveOk b m := by
  unfold Board.legalMoves at h
  exact pseudoLegal_moveOk (List.mem_of_mem_filter h)

/-- Claim C3: for every reachable Game and every move accepted by
`apply_move`, calling `undo_last_move()` immediately afterward succeeds and
restores the Board to field-for-field equality with its pre-move state —
piece placement, side to move, castling rights, en-passant target and both
move counters. -/
theorem apply_undo_restores (g : Game) (m : Move) (_h : Reachable g)
    (g2 : Game) (h2 : g.apply_move m = .ok g2) :
    Except.map Game.board g2.undo_last_move = .ok g.board := by
  unfold Game.apply_move at h2
  split_ifs at h2
  cases hf : g.board.legalMoves.find? (sameMove · m) with
  | none => rw [hf] at h2; cases h2
  | some lm =>
    rw [hf] at h2
    dsimp only at h2
    injection h2 with h2
    subst h2
    have hok : MoveOk g.board lm :=
      legalMoves_moveOk (List.mem_of_find?_eq_some hf)
    show Except.map Game.board (Game.undo_last_move _) = _
    unfold Game.undo_last_move
    dsimp only [Except.map]
    rw [undoMove_applyMove g.board lm hok]

/-- Witness for claim C3: from the starting position, accepting e2–e4 and
undoing it returns exactly the starting Board. -/
theorem apply_undo_restores_witness :
    Game.new.apply_move e2e4 = .ok e4Game
      ∧ Except.map Game.board e4Game.undo_last_move = .ok Game.new.board :=
  have h : Game.new.apply_move e2e4 = .ok e4Game := by rfl
  ⟨h, apply_undo_restores Game.new e2e4 Reachable.base e4Game h⟩

end Engine
